import Mathlib

/-!
Verification of the feedback-management-system ingestion-and-triage core.

The repository ships a product requirements document (src/docs/PRD.md) and a
trivial auth-client stub; the server implementation (Hono handler, Drizzle
schema in packages/db) is not present in the tree.  Following the PRD and the
specification, we build a shallow embedding of the ingestion endpoint, the
credential lifecycle, and the status-transition workflow, and prove the
specified properties about every reachable store state.
-/

namespace AFMS

/-- Modelled from the spec: one row of the `apps` table (PRD §5.1).
Attributes: unique identifier, display name, unique slug, opaque API
credential (plaintext, per the PRD), creation timestamp, optional owner. -/
structure App where
  id : String
  name : String
  slug : String
  apiKey : String
  createdAt : Nat
  ownerId : Option String
deriving Repr, DecidableEq

/-- Modelled from the spec: one row of the `feedbacks` table (PRD §5.2).
`status` is a nullable text column (`text("status").default("pending")`), so
it is embedded as `Option String`; the invariants proved below show the
defined operations never leave it null or outside the enumeration.
`deviceInfo` and `metadata` are JSON text columns, embedded as serialised
strings. -/
structure Feedback where
  id : Nat
  appId : String
  userId : Option String
  rating : Option Int
  category : Option String
  content : Option String
  deviceInfo : Option String
  metadata : Option String
  status : Option String
  createdAt : Nat
deriving Repr, DecidableEq

/-- Modelled from the spec: the structured request body of
`POST /api/v1/feedback` (PRD §4.1, spec §4.1): every content field is
optional; the application reference is derived from the credential, never
supplied by the caller. -/
structure FeedbackBody where
  userId : Option String
  rating : Option Int
  category : Option String
  content : Option String
  deviceInfo : Option String
  metadata : Option String
deriving Repr, DecidableEq

/-- Modelled from the spec: the rate-limit policy injected into the handler
(spec §6): a per-application bound of accepted submissions over a window. -/
structure RateLimitPolicy where
  threshold : Nat
  window : Nat
deriving Repr, DecidableEq

/-- Modelled from the spec: the configuration surface consumed by the core
(spec §6): rate-limit policy, accepted category label set, and size bounds
for content and metadata, all injected rather than hard-coded. -/
structure IngestConfig where
  rateLimit : RateLimitPolicy
  categories : List String
  contentMaxLen : Nat
  metadataMaxLen : Nat
deriving Repr, DecidableEq

/-- Modelled from the spec: the error kinds of §7. -/
inductive ApiError where
  | unauthorized
  | badRequest
  | unprocessableEntity (fields : List String)
  | tooManyRequests
  | conflict
  | notFound
  | internal
deriving Repr, DecidableEq

/-- The status enumeration of the triage lifecycle (spec §4.3). -/
def statusStrings : List String := ["pending", "in_progress", "resolved", "ignored"]

/-- Modelled from the spec: the whole persistent store (the two related
tables of §6), plus the auto-increment counter for feedback identifiers and
the accepted-submission log the rate limiter consults (appId, time). -/
structure StoreState where
  apps : List App
  feedbacks : List Feedback
  nextFeedbackId : Nat
  submissions : List (String × Nat)
deriving Repr, DecidableEq

/-- The empty store; SQLite auto-increment identifiers start at 1. -/
def initState : StoreState :=
  { apps := [], feedbacks := [], nextFeedbackId := 1, submissions := [] }

/-- Modelled from the spec: credential-to-application lookup by exact match
(spec §4.1 step 2). -/
def findAppByKey (apps : List App) (key : String) : Option App :=
  apps.find? (fun a => a.apiKey == key)

/-- Modelled from the spec: number of accepted submissions attributed to an
application that still fall inside the rate-limit window at time `now`. -/
def countRecent (subs : List (String × Nat)) (appId : String)
    (now window : Nat) : Nat :=
  (subs.filter (fun s => s.1 == appId && now < s.2 + window)).length

/-- Modelled from the spec: field-level validation (spec §4.1 step 4),
returning the list of offending field names: rating, if present, must be an
integer in [1,5]; category, if present, must belong to the accepted set;
content and the two metadata blobs, if present, must be bounded in size. -/
def validateFields (cfg : IngestConfig) (b : FeedbackBody) : List String :=
  (match b.rating with
   | none => []
   | some r => if 1 ≤ r ∧ r ≤ 5 then [] else ["rating"]) ++
  (match b.category with
   | none => []
   | some c => if c ∈ cfg.categories then [] else ["category"]) ++
  (match b.content with
   | none => []
   | some c => if c.length ≤ cfg.contentMaxLen then [] else ["content"]) ++
  (match b.deviceInfo with
   | none => []
   | some d => if d.length ≤ cfg.metadataMaxLen then [] else ["deviceInfo"]) ++
  (match b.metadata with
   | none => []
   | some m => if m.length ≤ cfg.metadataMaxLen then [] else ["metadata"])

/-- Modelled from the spec: the record the ingestion endpoint appends on
success (spec §4.1): server-assigned identifier and timestamp, application
reference resolved from the credential, status initialised to pending, and
every submitted field carried over unchanged. -/
def mkFeedback (app : App) (b : FeedbackBody) (fid now : Nat) : Feedback :=
  { id := fid
    appId := app.id
    userId := b.userId
    rating := b.rating
    category := b.category
    content := b.content
    deviceInfo := b.deviceInfo
    metadata := b.metadata
    status := some "pending"
    createdAt := now }

/-- Modelled from the spec: the ingestion endpoint `POST /api/v1/feedback`
(spec §4.1).  Validation order: credential presence, credential resolution,
rate limit (after authentication, before any body processing), body parse
(`none` models a malformed body), field validation; on success exactly one
record is appended with server-assigned identifier and timestamp and status
initialised to pending, and the acknowledgment carries the new identifier. -/
def ingest (cfg : IngestConfig) (st : StoreState) (now : Nat)
    (apiKey : Option String) (rawBody : Option FeedbackBody) :
    Except ApiError (StoreState × Nat) :=
  match apiKey with
  | none => .error .unauthorized
  | some key =>
    match findAppByKey st.apps key with
    | none => .error .unauthorized
    | some app =>
      if cfg.rateLimit.threshold <
          countRecent st.submissions app.id now cfg.rateLimit.window then
        .error .tooManyRequests
      else
        match rawBody with
        | none => .error .badRequest
        | some b =>
          match validateFields cfg b with
          | [] =>
            .ok ({ st with
                    feedbacks :=
                      st.feedbacks ++ [mkFeedback app b st.nextFeedbackId now]
                    nextFeedbackId := st.nextFeedbackId + 1
                    submissions := (app.id, now) :: st.submissions },
                 st.nextFeedbackId)
          | bad => .error (.unprocessableEntity bad)

/-- Modelled from the spec: the permitted transition edges of §4.3:
pending→in_progress, in_progress→resolved, in_progress→ignored, and the
fast paths pending→resolved and pending→ignored; nothing leaves a terminal
state. -/
def allowedTransition (src tgt : String) : Bool :=
  (src == "pending" &&
    (tgt == "in_progress" || tgt == "resolved" || tgt == "ignored")) ||
  (src == "in_progress" && (tgt == "resolved" || tgt == "ignored"))

/-- Modelled from the spec: the administrative status-transition operation
(§4.3): a single-row conditional update, allowed only when the current
status is a valid source for the requested target; otherwise `Conflict`. -/
def transitionStatus (st : StoreState) (fid : Nat) (target : String) :
    Except ApiError StoreState :=
  match st.feedbacks.find? (fun f => f.id == fid) with
  | none => .error .notFound
  | some f =>
    match f.status with
    | none => .error .conflict
    | some s =>
      if allowedTransition s target then
        .ok { st with
                feedbacks := st.feedbacks.map (fun g =>
                  if g.id == fid then { g with status := some target } else g) }
      else .error .conflict

/-- Total form of the transition operation: on failure the store is left
untouched and the error is reported alongside it. -/
def transitionStep (st : StoreState) (fid : Nat) (target : String) :
    StoreState × Except ApiError Unit :=
  match transitionStatus st fid target with
  | .ok st' => (st', .ok ())
  | .error e => (st, .error e)

/-- Whether some application already holds this credential. -/
def keyInUse (apps : List App) (key : String) : Bool :=
  apps.any (fun a => a.apiKey == key)

/-- Whether some application already holds this identifier. -/
def idInUse (apps : List App) (i : String) : Bool :=
  apps.any (fun a => a.id == i)

/-- Whether some application already holds this slug. -/
def slugInUse (apps : List App) (s : String) : Bool :=
  apps.any (fun a => a.slug == s)

/-- Modelled from the spec: administrative application registration (§4.2):
the issued credential must be non-empty and globally unique among active
credentials (on a collision the caller retries generation, modelled as
rejecting the colliding value); identifier and slug are likewise unique. -/
def createApp (st : StoreState) (a : App) : Except ApiError StoreState :=
  if a.apiKey == "" || keyInUse st.apps a.apiKey || idInUse st.apps a.id ||
      slugInUse st.apps a.slug then
    .error .conflict
  else
    .ok { st with apps := st.apps ++ [a] }

/-- Modelled from the spec: credential rotation (§4.2): replaces the
application's credential with a fresh value that must again be non-empty and
globally unique; from that moment the old value no longer resolves. -/
def rotateKey (st : StoreState) (appId newKey : String) :
    Except ApiError StoreState :=
  match st.apps.find? (fun a => a.id == appId) with
  | none => .error .notFound
  | some _ =>
    if newKey == "" || keyInUse st.apps newKey then .error .conflict
    else
      .ok { st with
              apps := st.apps.map (fun a =>
                if a.id == appId then { a with apiKey := newKey } else a) }

/-- Fetch one feedback record by identifier (administrative read). -/
def getFeedback (st : StoreState) (fid : Nat) : Option Feedback :=
  st.feedbacks.find? (fun f => f.id == fid)

/-- The states reachable from the empty store by the defined operations:
application registration, credential rotation, ingestion, and
administrative status transitions. -/
inductive Reachable : StoreState → Prop where
  | init : Reachable initState
  | create (st : StoreState) (a : App) (st' : StoreState) :
      Reachable st → createApp st a = .ok st' → Reachable st'
  | rotate (st : StoreState) (appId newKey : String) (st' : StoreState) :
      Reachable st → rotateKey st appId newKey = .ok st' → Reachable st'
  | submit (cfg : IngestConfig) (st : StoreState) (now : Nat)
      (key : Option String) (b : Option FeedbackBody)
      (st' : StoreState) (fid : Nat) :
      Reachable st → ingest cfg st now key b = .ok (st', fid) → Reachable st'
  | triage (st : StoreState) (fid : Nat) (target : String) (st' : StoreState) :
      Reachable st → transitionStatus st fid target = .ok st' → Reachable st'

/-- A status value drawn from the fixed enumeration (never null). -/
def StatusOk (s : Option String) : Prop :=
  s = some "pending" ∨ s = some "in_progress" ∨
    s = some "resolved" ∨ s = some "ignored"

/-- The apps-table invariant: credentials are non-empty, and credential,
identifier and slug are pairwise distinct across rows. -/
def AppsOk (apps : List App) : Prop :=
  (∀ a ∈ apps, a.apiKey ≠ "") ∧
    List.Pairwise
      (fun a b => a.apiKey ≠ b.apiKey ∧ a.id ≠ b.id ∧ a.slug ≠ b.slug) apps

/-- The full store invariant. -/
def Inv (st : StoreState) : Prop :=
  AppsOk st.apps ∧
  (∀ f ∈ st.feedbacks, ∃ a ∈ st.apps, a.id = f.appId) ∧
  (∀ f ∈ st.feedbacks, StatusOk f.status) ∧
  List.Pairwise (fun f g => f.id < g.id) st.feedbacks ∧
  (∀ f ∈ st.feedbacks, f.id < st.nextFeedbackId)

/-- A submission with every optional field absent. -/
def minimalBody : FeedbackBody :=
  { userId := none, rating := none, category := none, content := none,
    deviceInfo := none, metadata := none }

/-! ### Concrete fixtures used to exercise the theorems -/

/-- A registered application. -/
def app0 : App :=
  { id := "app-1", name := "Demo", slug := "demo", apiKey := "key-1",
    createdAt := 0, ownerId := none }

/-- An injected policy: at most 2 accepted submissions per 10-unit window,
the PRD category labels, and generous size bounds. -/
def cfg0 : IngestConfig :=
  { rateLimit := { threshold := 2, window := 10 },
    categories := ["bug", "feature", "general", "ui/ux"],
    contentMaxLen := 1000, metadataMaxLen := 1000 }

/-- Store after registering `app0`. -/
def stA : StoreState :=
  { apps := [app0], feedbacks := [], nextFeedbackId := 1, submissions := [] }

/-- A fully populated submission body. -/
def body0 : FeedbackBody :=
  { userId := some "user-9", rating := some 5, category := some "bug",
    content := some "crashes on launch", deviceInfo := some "ios 17",
    metadata := none }

/-- The record created by ingesting `body0` into `stA` at time 3. -/
def fb0 : Feedback :=
  { id := 1, appId := "app-1", userId := some "user-9", rating := some 5,
    category := some "bug", content := some "crashes on launch",
    deviceInfo := some "ios 17", metadata := none, status := some "pending",
    createdAt := 3 }

/-- Store after the first accepted submission. -/
def stB : StoreState :=
  { apps := [app0], feedbacks := [fb0], nextFeedbackId := 2,
    submissions := [("app-1", 3)] }

/-- The record created by a second ingestion of `body0` at time 4. -/
def fb1 : Feedback :=
  { id := 2, appId := "app-1", userId := some "user-9", rating := some 5,
    category := some "bug", content := some "crashes on launch",
    deviceInfo := some "ios 17", metadata := none, status := some "pending",
    createdAt := 4 }

/-- Store after two accepted submissions. -/
def stE : StoreState :=
  { apps := [app0], feedbacks := [fb0, fb1], nextFeedbackId := 3,
    submissions := [("app-1", 4), ("app-1", 3)] }

/-- Store after triaging the first record to in_progress. -/
def stF : StoreState :=
  { apps := [app0],
    feedbacks := [{ fb0 with status := some "in_progress" }],
    nextFeedbackId := 2, submissions := [("app-1", 3)] }

/-- A store holding a record already in the terminal state resolved. -/
def stC : StoreState :=
  { apps := [app0], feedbacks := [{ fb0 with status := some "resolved" }],
    nextFeedbackId := 2, submissions := [("app-1", 3)] }

/-- Store after rotating the credential of `app0` to a fresh value. -/
def stR : StoreState :=
  { apps := [{ app0 with apiKey := "key-2" }], feedbacks := [],
    nextFeedbackId := 1, submissions := [] }

/-- A store whose submission log already exceeds the rate-limit threshold
inside the window at time 5. -/
def stD : StoreState :=
  { apps := [app0], feedbacks := [], nextFeedbackId := 1,
    submissions := [("app-1", 0), ("app-1", 0), ("app-1", 1)] }

/-- A submission whose rating lies outside the accepted 1-5 range. -/
def badBody : FeedbackBody :=
  { userId := some "user-9", rating := some 7, category := some "bug",
    content := some "crashes on launch", deviceInfo := some "ios 17",
    metadata := none }

/-! ### List helper lemmas -/

/-- `find?` over a list ending in the only matching element. -/
theorem find?_last {α : Type} (p : α → Bool) (l : List α) (a : α)
    (h : ∀ x ∈ l, p x = false) (ha : p a = true) :
    (l ++ [a]).find? p = some a := by
  rw [List.find?_append, List.find?_eq_none.mpr (by intro x hx; simp [h x hx]),
    Option.none_or]
  simp [List.find?_cons, ha]

/-- `find?` only depends on the predicate's values on the list's members. -/
theorem find?_congr_mem {α : Type} (p q : α → Bool) (l : List α)
    (h : ∀ x ∈ l, p x = q x) : l.find? p = l.find? q := by
  induction l with
  | nil => rfl
  | cons x xs ih =>
    have hx := h x (List.mem_cons_self x xs)
    cases hq : q x with
    | true => rw [List.find?_cons_of_pos _ (hx.trans hq), List.find?_cons_of_pos _ hq]
    | false =>
      rw [List.find?_cons_of_neg _ (by simp [hx, hq]), List.find?_cons_of_neg _ (by simp [hq])]
      exact ih (fun y hy => h y (List.mem_cons_of_mem _ hy))

/-- `find?` returns the designated element when it is the unique match. -/
theorem find?_unique_mem {α : Type} (p : α → Bool) (l : List α) (a : α)
    (ha : a ∈ l) (hpa : p a = true)
    (huniq : ∀ x ∈ l, p x = true → x = a) : l.find? p = some a := by
  induction l with
  | nil => cases ha
  | cons x xs ih =>
    cases hpx : p x with
    | true => rw [List.find?_cons_of_pos _ hpx, huniq x (List.mem_cons_self x xs) hpx]
    | false =>
      rw [List.find?_cons_of_neg _ (by simp [hpx])]
      have hax : a ≠ x := by intro hax; rw [hax] at hpa; rw [hpa] at hpx; cases hpx
      exact ih ((List.mem_cons.mp ha).resolve_left hax)
        (fun y hy hpy => huniq y (List.mem_cons_of_mem _ hy) hpy)

/-! ### Invariant preservation -/

/-- Registration preserves the store invariant. -/
theorem createApp_inv (st : StoreState) (a : App) (st' : StoreState)
    (h : Inv st) (hc : createApp st a = .ok st') : Inv st' := by
  unfold createApp at hc
  split at hc
  · cases hc
  · next hcond =>
    injection hc with hc
    subst hc
    simp only [Bool.or_eq_true, beq_iff_eq, not_or, keyInUse, idInUse, slugInUse,
      List.any_eq_true, not_exists, not_and] at hcond
    obtain ⟨⟨⟨hkey0, hkey⟩, hid⟩, hslug⟩ := hcond
    obtain ⟨⟨hne, hpw⟩, href, hstat, hmono, hbound⟩ := h
    refine ⟨⟨?_, ?_⟩, ?_, hstat, hmono, hbound⟩
    · intro x hx
      rcases List.mem_append.mp hx with hx | hx
      · exact hne x hx
      · rw [List.mem_singleton.mp hx]; exact hkey0
    · refine List.pairwise_append.mpr ⟨hpw, List.pairwise_singleton _ _, ?_⟩
      intro x hx b hb
      rw [List.mem_singleton.mp hb]
      exact ⟨fun e => hkey x hx e, fun e => hid x hx e, fun e => hslug x hx e⟩
    · intro f hf
      obtain ⟨a', ha', hid'⟩ := href f hf
      exact ⟨a', List.mem_append_left _ ha', hid'⟩

/-- Credential rotation preserves the store invariant. -/
theorem rotateKey_inv (st : StoreState) (appId newKey : String) (st' : StoreState)
    (h : Inv st) (hr : rotateKey st appId newKey = .ok st') : Inv st' := by
  unfold rotateKey at hr
  split at hr
  · cases hr
  · split at hr
    · cases hr
    · next hcond =>
      injection hr with hr
      subst hr
      simp only [Bool.or_eq_true, beq_iff_eq, not_or, keyInUse, List.any_eq_true,
        not_exists, not_and] at hcond
      obtain ⟨hk0, hkuse⟩ := hcond
      obtain ⟨⟨hne, hpw⟩, href, hstat, hmono, hbound⟩ := h
      have hupd_id : ∀ y : App,
          (if y.id == appId then { y with apiKey := newKey } else y).id = y.id := by
        intro y; split <;> rfl
      have hupd_slug : ∀ y : App,
          (if y.id == appId then { y with apiKey := newKey } else y).slug = y.slug := by
        intro y; split <;> rfl
      refine ⟨⟨?_, ?_⟩, ?_, hstat, hmono, hbound⟩
      · intro x hx
        obtain ⟨y, hy, rfl⟩ := List.mem_map.mp hx
        by_cases hy2 : y.id = appId
        · rw [if_pos (by simp [hy2])]
          exact hk0
        · rw [if_neg (by simp [hy2])]
          exact hne y hy
      · rw [List.pairwise_map]
        refine List.Pairwise.imp_of_mem ?_ hpw
        intro x y hx hy hxy
        obtain ⟨hxk, hxi, hxs⟩ := hxy
        refine ⟨?_, by rw [hupd_id, hupd_id]; exact hxi,
          by rw [hupd_slug, hupd_slug]; exact hxs⟩
        by_cases hx2 : x.id = appId <;> by_cases hy2 : y.id = appId
        · exact absurd (hx2.trans hy2.symm) hxi
        · rw [if_pos (by simp [hx2]), if_neg (by simp [hy2])]
          exact fun e => hkuse y hy e.symm
        · rw [if_neg (by simp [hx2]), if_pos (by simp [hy2])]
          exact fun e => hkuse x hx e
        · rw [if_neg (by simp [hx2]), if_neg (by simp [hy2])]
          exact hxk
      · intro f hf
        obtain ⟨a, ha, haid⟩ := href f hf
        exact ⟨_, List.mem_map_of_mem _ ha, (hupd_id a).trans haid⟩

/-- Successful ingestion preserves the store invariant. -/
theorem ingest_inv (cfg : IngestConfig) (st : StoreState) (now : Nat)
    (key : Option String) (b : Option FeedbackBody) (st' : StoreState) (fid : Nat)
    (h : Inv st) (hi : ingest cfg st now key b = .ok (st', fid)) : Inv st' := by
  unfold ingest at hi
  split at hi
  · cases hi
  · split at hi
    · cases hi
    · next app hfind =>
      split at hi
      · cases hi
      · split at hi
        · cases hi
        · next b0 =>
          split at hi
          · injection hi with hi
            injection hi with hi1 hi2
            subst hi1
            obtain ⟨happs, href, hstat, hmono, hbound⟩ := h
            have happmem : app ∈ st.apps := List.mem_of_find?_eq_some hfind
            refine ⟨happs, ?_, ?_, ?_, ?_⟩
            · intro f hf
              rcases List.mem_append.mp hf with hf | hf
              · exact href f hf
              · rw [List.mem_singleton.mp hf]
                exact ⟨app, happmem, rfl⟩
            · intro f hf
              rcases List.mem_append.mp hf with hf | hf
              · exact hstat f hf
              · rw [List.mem_singleton.mp hf]
                exact Or.inl rfl
            · refine List.pairwise_append.mpr
                ⟨hmono, List.pairwise_singleton _ _, ?_⟩
              intro f hf g hg
              rw [List.mem_singleton.mp hg]
              exact hbound f hf
            · intro f hf
              rcases List.mem_append.mp hf with hf | hf
              · exact Nat.lt_succ_of_lt (hbound f hf)
              · rw [List.mem_singleton.mp hf]
                exact Nat.lt_succ_self _
          · cases hi

/-- A valid status transition preserves the store invariant. -/
theorem transitionStatus_inv (st : StoreState) (fid : Nat) (target : String)
    (st' : StoreState) (h : Inv st)
    (ht : transitionStatus st fid target = .ok st') : Inv st' := by
  unfold transitionStatus at ht
  split at ht
  · cases ht
  · split at ht
    · cases ht
    · next s hs =>
      split at ht
      · next hallow =>
        injection ht with ht
        subst ht
        have htgt : target = "in_progress" ∨ target = "resolved" ∨
            target = "ignored" := by
          simp only [allowedTransition, Bool.or_eq_true, Bool.and_eq_true,
            beq_iff_eq] at hallow
          rcases hallow with ⟨-, h1 | h1 | h1⟩ | ⟨-, h1 | h1⟩ <;> tauto
        obtain ⟨happs, href, hstat, hmono, hbound⟩ := h
        have hupd_id : ∀ g : Feedback,
            (if g.id == fid then { g with status := some target } else g).id
              = g.id := by
          intro g; split <;> rfl
        have hupd_app : ∀ g : Feedback,
            (if g.id == fid then { g with status := some target } else g).appId
              = g.appId := by
          intro g; split <;> rfl
        refine ⟨happs, ?_, ?_, ?_, ?_⟩
        · intro g hg
          obtain ⟨g0, hg0, rfl⟩ := List.mem_map.mp hg
          obtain ⟨a, ha, haid⟩ := href g0 hg0
          exact ⟨a, ha, haid.trans (hupd_app g0).symm⟩
        · intro g hg
          obtain ⟨g0, hg0, rfl⟩ := List.mem_map.mp hg
          by_cases hg2 : g0.id = fid
          · rw [if_pos (by simp [hg2])]
            rcases htgt with h1 | h1 | h1 <;> rw [h1] <;>
              simp [StatusOk]
          · rw [if_neg (by simp [hg2])]
            exact hstat g0 hg0
        · rw [List.pairwise_map]
          refine hmono.imp ?_
          intro a b hab
          rw [hupd_id, hupd_id]
          exact hab
        · intro g hg
          obtain ⟨g0, hg0, rfl⟩ := List.mem_map.mp hg
          rw [hupd_id]
          exact hbound g0 hg0
      · cases ht

/-- Every reachable store state satisfies the invariant. -/
theorem reachable_inv (st : StoreState) (h : Reachable st) : Inv st := by
  induction h with
  | init =>
    refine ⟨⟨?_, ?_⟩, ?_, ?_, ?_, ?_⟩ <;> simp [initState]
  | create st a st' _ hc ih => exact createApp_inv st a st' ih hc
  | rotate st appId newKey st' _ hr ih => exact rotateKey_inv st appId newKey st' ih hr
  | submit cfg st now key b st' fid _ hi ih => exact ingest_inv cfg st now key b st' fid ih hi
  | triage st fid target st' _ ht ih => exact transitionStatus_inv st fid target st' ih ht

/-! ### Shared consequences of the invariant -/

/-- Within a valid apps table, the credential determines the row. -/
theorem appsOk_key_inj (apps : List App) (h : AppsOk apps) :
    ∀ x ∈ apps, ∀ y ∈ apps, x.apiKey = y.apiKey → x = y := by
  intro x hx y hy hk
  by_contra hxy
  exact (h.2.forall (fun a b hab => ⟨hab.1.symm, hab.2.1.symm, hab.2.2.symm⟩)
    hx hy hxy).1 hk

/-- Within a valid apps table, the identifier determines the row. -/
theorem appsOk_id_inj (apps : List App) (h : AppsOk apps) :
    ∀ x ∈ apps, ∀ y ∈ apps, x.id = y.id → x = y := by
  intro x hx y hy hk
  by_contra hxy
  exact (h.2.forall (fun a b hab => ⟨hab.1.symm, hab.2.1.symm, hab.2.2.symm⟩)
    hx hy hxy).2.1 hk

/-- A request with no credential is rejected before anything else. -/
theorem ingest_missing_key (cfg : IngestConfig) (st : StoreState) (now : Nat)
    (b : Option FeedbackBody) :
    ingest cfg st now none b = .error .unauthorized := rfl

/-- A credential matching no application is rejected. -/
theorem ingest_unknown_key (cfg : IngestConfig) (st : StoreState) (now : Nat)
    (key : String) (b : Option FeedbackBody)
    (hfind : findAppByKey st.apps key = none) :
    ingest cfg st now (some key) b = .error .unauthorized := by
  simp only [ingest, hfind]

/-- Reduction of a successful ingestion to its effect on the store. -/
theorem ingest_success_eq (cfg : IngestConfig) (st : StoreState) (now : Nat)
    (key : String) (app : App) (b : FeedbackBody)
    (happ : findAppByKey st.apps key = some app)
    (hrate : countRecent st.submissions app.id now cfg.rateLimit.window ≤
      cfg.rateLimit.threshold)
    (hval : validateFields cfg b = []) :
    ingest cfg st now (some key) (some b) = .ok
      ({ st with
          feedbacks := st.feedbacks ++ [mkFeedback app b st.nextFeedbackId now]
          nextFeedbackId := st.nextFeedbackId + 1
          submissions := (app.id, now) :: st.submissions },
       st.nextFeedbackId) := by
  simp only [ingest, happ, hval, if_neg (Nat.not_lt.mpr hrate)]

/-- Nothing may leave the terminal state resolved. -/
theorem allowedTransition_resolved (t : String) :
    allowedTransition "resolved" t = false := by
  have h1 : (("resolved" : String) == "pending") = false := by decide
  have h2 : (("resolved" : String) == "in_progress") = false := by decide
  simp [allowedTransition, h1, h2]

/-- Nothing may leave the terminal state ignored. -/
theorem allowedTransition_ignored (t : String) :
    allowedTransition "ignored" t = false := by
  have h1 : (("ignored" : String) == "pending") = false := by decide
  have h2 : (("ignored" : String) == "in_progress") = false := by decide
  simp [allowedTransition, h1, h2]

/-! ### Reachability of the fixtures -/

theorem reach_stA : Reachable stA :=
  Reachable.create initState app0 stA Reachable.init rfl

theorem reach_stB : Reachable stB :=
  Reachable.submit cfg0 stA 3 (some "key-1") (some body0) stB 1 reach_stA rfl

theorem reach_stE : Reachable stE :=
  Reachable.submit cfg0 stB 4 (some "key-1") (some body0) stE 2 reach_stB rfl

theorem reach_stF : Reachable stF :=
  Reachable.triage stB 1 "in_progress" stF reach_stB rfl

theorem reach_stR : Reachable stR :=
  Reachable.rotate stA "app-1" "key-2" stR reach_stA rfl

/-! ### Claim theorems -/

/-- Claim C1: for every submission carrying a correct, active credential that
passes validation, exactly one new feedback record is appended, referencing
the resolved application, with server-assigned identifier and creation
timestamp and status initialised to pending, and every submitted field value
is preserved: reading the record back yields the submitted values. -/
theorem ingest_success_roundtrip
    (cfg : IngestConfig) (st : StoreState) (now : Nat) (key : String)
    (app : App) (b : FeedbackBody) (st' : StoreState) (fid : Nat)
    (hreach : Reachable st)
    (happ : findAppByKey st.apps key = some app)
    (hok : ingest cfg st now (some key) (some b) = .ok (st', fid)) :
    fid = st.nextFeedbackId ∧
    st'.feedbacks = st.feedbacks ++
      [{ id := fid, appId := app.id, userId := b.userId, rating := b.rating,
         category := b.category, content := b.content,
         deviceInfo := b.deviceInfo, metadata := b.metadata,
         status := some "pending", createdAt := now }] ∧
    getFeedback st' fid = some
      { id := fid, appId := app.id, userId := b.userId, rating := b.rating,
        category := b.category, content := b.content,
        deviceInfo := b.deviceInfo, metadata := b.metadata,
        status := some "pending", createdAt := now } := by
  by_cases hrate : cfg.rateLimit.threshold <
      countRecent st.submissions app.id now cfg.rateLimit.window
  · rw [show ingest cfg st now (some key) (some b) = .error .tooManyRequests by
      simp only [ingest, happ, if_pos hrate]] at hok
    cases hok
  · cases hval : validateFields cfg b with
    | cons x xs =>
      rw [show ingest cfg st now (some key) (some b) =
          .error (.unprocessableEntity (x :: xs)) by
        simp only [ingest, happ, if_neg hrate, hval]] at hok
      cases hok
    | nil =>
      rw [ingest_success_eq cfg st now key app b happ (Nat.not_lt.mp hrate) hval]
        at hok
      injection hok with hok
      injection hok with h1 h2
      subst h1
      subst h2
      refine ⟨rfl, rfl, ?_⟩
      unfold getFeedback
      have hb := (reachable_inv st hreach).2.2.2.2
      refine find?_last _ _ _ ?_ (by simp [mkFeedback])
      intro g hg
      simpa using Nat.ne_of_lt (hb g hg)

/-- Witness for C1: ingesting a concrete valid submission into the
one-application store appends exactly that record and reads it back. -/
theorem ingest_success_roundtrip_witness :
    (1 : Nat) = stA.nextFeedbackId ∧
    stB.feedbacks = stA.feedbacks ++
      [{ id := 1, appId := app0.id, userId := body0.userId,
         rating := body0.rating, category := body0.category,
         content := body0.content, deviceInfo := body0.deviceInfo,
         metadata := body0.metadata, status := some "pending",
         createdAt := 3 }] ∧
    getFeedback stB 1 = some
      { id := 1, appId := app0.id, userId := body0.userId,
        rating := body0.rating, category := body0.category,
        content := body0.content, deviceInfo := body0.deviceInfo,
        metadata := body0.metadata, status := some "pending",
        createdAt := 3 } :=
  ingest_success_roundtrip cfg0 stA 3 "key-1" app0 body0 stB 1
    reach_stA rfl rfl

/-- Claim C3: every reachable feedback record's status is one of the fixed
enumeration values pending, in_progress, resolved, ignored - never null and
never arbitrary text; the invariant is established at creation and preserved
by every operation. -/
theorem status_always_in_enumeration (st : StoreState) (hreach : Reachable st) :
    ∀ f ∈ st.feedbacks, f.status = some "pending" ∨
      f.status = some "in_progress" ∨ f.status = some "resolved" ∨
      f.status = some "ignored" :=
  fun f hf => (reachable_inv st hreach).2.2.1 f hf

/-- Witness for C3: the record of a store reached through a triage
transition carries one of the enumerated statuses. -/
theorem status_always_in_enumeration_witness :
    ({ fb0 with status := some "in_progress" } : Feedback).status =
        some "pending" ∨
      ({ fb0 with status := some "in_progress" } : Feedback).status =
        some "in_progress" ∨
      ({ fb0 with status := some "in_progress" } : Feedback).status =
        some "resolved" ∨
      ({ fb0 with status := some "in_progress" } : Feedback).status =
        some "ignored" :=
  status_always_in_enumeration stF reach_stF _ (List.mem_singleton.mpr rfl)

/-- Claim C4: at every reachable state the API credential uniquely
identifies exactly one application: credentials are non-empty, no two
application rows share a credential, and equal credentials force equal
rows. -/
theorem credential_unique_nonempty (st : StoreState) (hreach : Reachable st) :
    (∀ a ∈ st.apps, a.apiKey ≠ "") ∧
    List.Pairwise (fun a b => a.apiKey ≠ b.apiKey) st.apps ∧
    ∀ a ∈ st.apps, ∀ a' ∈ st.apps, a.apiKey = a'.apiKey → a = a' := by
  obtain ⟨happs, -, -, -, -⟩ := reachable_inv st hreach
  exact ⟨happs.1, happs.2.imp (fun h => h.1), appsOk_key_inj st.apps happs⟩

/-- Witness for C4: the invariant instantiated at the store reached through
a credential rotation. -/
theorem credential_unique_nonempty_witness :
    (∀ a ∈ stR.apps, a.apiKey ≠ "") ∧
    List.Pairwise (fun a b => a.apiKey ≠ b.apiKey) stR.apps ∧
    ∀ a ∈ stR.apps, ∀ a' ∈ stR.apps, a.apiKey = a'.apiKey → a = a' :=
  credential_unique_nonempty stR reach_stR

/-- Claim C9: feedback identifiers are monotonically assigned: in every
reachable store the records, in creation order, carry strictly increasing
identifiers, whatever interleaving of operations produced the store. -/
theorem feedback_ids_monotone (st : StoreState) (hreach : Reachable st) :
    List.Pairwise (fun f g => f.id < g.id) st.feedbacks :=
  (reachable_inv st hreach).2.2.2.1

/-- Witness for C9: the identifiers of the two-record store are strictly
increasing. -/
theorem feedback_ids_monotone_witness :
    List.Pairwise (fun f g => f.id < g.id) stE.feedbacks :=
  feedback_ids_monotone stE reach_stE

/-- Claim C2: a submission whose credential is missing or unknown creates no
record and returns Unauthorized; and from the moment a rotation takes
effect the endpoint resolves the new credential and rejects the old one with
no grace period. -/
theorem ingest_unauthorized_credentials
    (cfg : IngestConfig) (st : StoreState) (now : Nat)
    (hreach : Reachable st) :
    (∀ b, ingest cfg st now none b = .error .unauthorized) ∧
    (∀ key b, findAppByKey st.apps key = none →
      ingest cfg st now (some key) b = .error .unauthorized) ∧
    (∀ app newKey st', app ∈ st.apps →
      rotateKey st app.id newKey = .ok st' →
      (∃ a, findAppByKey st'.apps newKey = some a ∧ a.id = app.id) ∧
      ∀ b, ingest cfg st' now (some app.apiKey) b = .error .unauthorized) := by
  obtain ⟨happs, -, -, -, -⟩ := reachable_inv st hreach
  refine ⟨fun b => ingest_missing_key cfg st now b,
    fun key b h => ingest_unknown_key cfg st now key b h, ?_⟩
  intro app newKey st' happmem hrot
  unfold rotateKey at hrot
  split at hrot
  · cases hrot
  · split at hrot
    · cases hrot
    · next hcond =>
      injection hrot with hrot
      subst hrot
      simp only [Bool.or_eq_true, beq_iff_eq, not_or, keyInUse,
        List.any_eq_true, not_exists, not_and] at hcond
      obtain ⟨hk0, hkuse⟩ := hcond
      have hnewne : app.apiKey ≠ newKey := hkuse app happmem
      constructor
      · refine ⟨{ app with apiKey := newKey }, ?_, rfl⟩
        unfold findAppByKey
        refine find?_unique_mem _ _ _ ?_ (by simp) ?_
        · refine List.mem_map.mpr ⟨app, happmem, ?_⟩
          rw [if_pos (by simp)]
        · intro x hx hpx
          obtain ⟨y, hy, rfl⟩ := List.mem_map.mp hx
          by_cases hy2 : y.id = app.id
          · have hya : y = app := appsOk_id_inj st.apps happs y hy app happmem hy2
            subst hya
            rw [if_pos (by simp)]
          · rw [if_neg (by simp [hy2])] at hpx
            exact absurd (by simpa using hpx) (hkuse y hy)
      · intro b
        apply ingest_unknown_key
        unfold findAppByKey
        rw [List.find?_eq_none]
        intro x hx
        obtain ⟨y, hy, rfl⟩ := List.mem_map.mp hx
        by_cases hy2 : y.id = app.id
        · rw [if_pos (by simp [hy2])]
          intro e
          have e' : newKey = app.apiKey := by simpa using e
          exact hnewne e'.symm
        · rw [if_neg (by simp [hy2])]
          intro e
          have hya : y = app :=
            appsOk_key_inj st.apps happs y hy app happmem (by simpa using e)
          exact hy2 (congrArg App.id hya)

/-- Witness for C2: after rotating the demo application's credential, the
new value resolves to the application and the old value is rejected with
Unauthorized for every body. -/
theorem ingest_unauthorized_credentials_witness :
    (∃ a, findAppByKey stR.apps "key-2" = some a ∧ a.id = app0.id) ∧
    ∀ b, ingest cfg0 stR 7 (some app0.apiKey) b = .error .unauthorized :=
  (ingest_unauthorized_credentials cfg0 stA 7 reach_stA).2.2 app0 "key-2" stR
    (List.mem_singleton.mpr rfl) rfl

/-- Claim C5: an authenticated submission whose rating is present but
outside [1,5], or whose category is present but outside the accepted set, is
rejected with UnprocessableEntity enumerating the offending field(s), and no
record is created. -/
theorem invalid_fields_rejected
    (cfg : IngestConfig) (st : StoreState) (now : Nat) (key : String)
    (app : App) (b : FeedbackBody)
    (happ : findAppByKey st.apps key = some app)
    (hrate : countRecent st.submissions app.id now cfg.rateLimit.window ≤
      cfg.rateLimit.threshold)
    (hbad : (∃ r, b.rating = some r ∧ ¬(1 ≤ r ∧ r ≤ 5)) ∨
      (∃ c, b.category = some c ∧ c ∉ cfg.categories)) :
    ingest cfg st now (some key) (some b) =
      .error (.unprocessableEntity (validateFields cfg b)) ∧
    (∀ r, b.rating = some r → ¬(1 ≤ r ∧ r ≤ 5) →
      "rating" ∈ validateFields cfg b) ∧
    (∀ c, b.category = some c → c ∉ cfg.categories →
      "category" ∈ validateFields cfg b) := by
  have hrat : ∀ r, b.rating = some r → ¬(1 ≤ r ∧ r ≤ 5) →
      "rating" ∈ validateFields cfg b := by
    intro r hr hinv
    simp only [validateFields, hr, if_neg hinv]
    simp
  have hcat : ∀ c, b.category = some c → c ∉ cfg.categories →
      "category" ∈ validateFields cfg b := by
    intro c hc hinv
    simp only [validateFields, hc, if_neg hinv]
    simp
  have hne : validateFields cfg b ≠ [] := by
    rcases hbad with ⟨r, hr, hinv⟩ | ⟨c, hc, hinv⟩
    · exact List.ne_nil_of_mem (hrat r hr hinv)
    · exact List.ne_nil_of_mem (hcat c hc hinv)
  refine ⟨?_, hrat, hcat⟩
  cases hval : validateFields cfg b with
  | nil => exact absurd hval hne
  | cons x xs =>
    simp only [ingest, happ, if_neg (Nat.not_lt.mpr hrate), hval]

/-- Witness for C5: a concrete submission with rating 7 is rejected with
UnprocessableEntity and the rating field flagged. -/
theorem invalid_fields_rejected_witness :
    ingest cfg0 stA 5 (some "key-1") (some badBody) =
      .error (.unprocessableEntity (validateFields cfg0 badBody)) ∧
    (∀ r, badBody.rating = some r → ¬(1 ≤ r ∧ r ≤ 5) →
      "rating" ∈ validateFields cfg0 badBody) ∧
    (∀ c, badBody.category = some c → c ∉ cfg0.categories →
      "category" ∈ validateFields cfg0 badBody) :=
  invalid_fields_rejected cfg0 stA 5 "key-1" app0 badBody rfl (by decide)
    (Or.inl ⟨7, rfl, by decide⟩)

/-- Claim C6: every attempted transition out of a terminal state (resolved
or ignored) fails with Conflict and leaves the stored status unchanged. -/
theorem terminal_transition_conflict (st : StoreState) (fid : Nat) (f : Feedback)
    (hget : getFeedback st fid = some f)
    (hterm : f.status = some "resolved" ∨ f.status = some "ignored") :
    ∀ target, transitionStep st fid target = (st, .error .conflict) := by
  intro target
  unfold getFeedback at hget
  have hts : transitionStatus st fid target = .error .conflict := by
    unfold transitionStatus
    rcases hterm with h | h <;>
      simp [hget, h, allowedTransition_resolved, allowedTransition_ignored]
  unfold transitionStep
  rw [hts]

/-- Witness for C6: moving a resolved record back to in_progress fails with
Conflict and the store is unchanged. -/
theorem terminal_transition_conflict_witness :
    transitionStep stC 1 "in_progress" = (stC, .error .conflict) :=
  terminal_transition_conflict stC 1 { fb0 with status := some "resolved" }
    rfl (Or.inl rfl) "in_progress"

/-- Claim C7: once more than the threshold of accepted submissions fall
inside the window, the next submission is rejected with TooManyRequests
before its payload is even examined (the check runs after authentication and
before body validation) and creates no record; once the window has elapsed,
a valid submission is accepted again. -/
theorem rate_limit_contract
    (cfg : IngestConfig) (st : StoreState) (now : Nat) (key : String)
    (app : App)
    (happ : findAppByKey st.apps key = some app) :
    (cfg.rateLimit.threshold <
        countRecent st.submissions app.id now cfg.rateLimit.window →
      ∀ b, ingest cfg st now (some key) b = .error .tooManyRequests) ∧
    ((∀ s ∈ st.submissions, s.1 = app.id → s.2 + cfg.rateLimit.window ≤ now) →
      countRecent st.submissions app.id now cfg.rateLimit.window = 0 ∧
      ∀ b, validateFields cfg b = [] →
        ingest cfg st now (some key) (some b) = .ok
          ({ st with
              feedbacks :=
                st.feedbacks ++ [mkFeedback app b st.nextFeedbackId now]
              nextFeedbackId := st.nextFeedbackId + 1
              submissions := (app.id, now) :: st.submissions },
           st.nextFeedbackId)) := by
  constructor
  · intro h b
    simp only [ingest, happ, if_pos h]
  · intro hall
    have hzero : countRecent st.submissions app.id now cfg.rateLimit.window
        = 0 := by
      unfold countRecent
      rw [List.length_eq_zero, List.filter_eq_nil_iff]
      intro s hs
      by_cases h1 : s.1 = app.id
      · simp [h1, Nat.not_lt.mpr (hall s hs h1)]
      · simp [h1]
    exact ⟨hzero, fun b hval =>
      ingest_success_eq cfg st now key app b happ
        (by rw [hzero]; exact Nat.zero_le _) hval⟩

/-- Witness for C7: with three accepted submissions inside the window a
fourth request is rejected without a body ever being parsed, and after the
window has elapsed a minimal valid submission succeeds. -/
theorem rate_limit_contract_witness :
    ingest cfg0 stD 5 (some "key-1") none = .error .tooManyRequests ∧
    countRecent stD.submissions app0.id 20 cfg0.rateLimit.window = 0 ∧
    ingest cfg0 stD 20 (some "key-1") (some minimalBody) = .ok
      ({ stD with
          feedbacks := stD.feedbacks ++ [mkFeedback app0 minimalBody 1 20]
          nextFeedbackId := 2
          submissions := ("app-1", 20) :: stD.submissions }, 1) :=
  ⟨(rate_limit_contract cfg0 stD 5 "key-1" app0 rfl).1 (by decide) none,
   ((rate_limit_contract cfg0 stD 20 "key-1" app0 rfl).2 (by decide)).1,
   ((rate_limit_contract cfg0 stD 20 "key-1" app0 rfl).2 (by decide)).2
     minimalBody rfl⟩

/-- Claim C8: every reachable feedback record references exactly one
existing application, and a write whose credential resolves to no
application is rejected. -/
theorem referential_integrity (st : StoreState) (hreach : Reachable st) :
    (∀ f ∈ st.feedbacks, ∃ a, a ∈ st.apps ∧ a.id = f.appId ∧
      ∀ a' ∈ st.apps, a'.id = f.appId → a' = a) ∧
    ∀ cfg now key b, findAppByKey st.apps key = none →
      ingest cfg st now (some key) b = .error .unauthorized := by
  obtain ⟨happs, href, -, -, -⟩ := reachable_inv st hreach
  refine ⟨?_, fun cfg now key b h => ingest_unknown_key cfg st now key b h⟩
  intro f hf
  obtain ⟨a, ha, haid⟩ := href f hf
  exact ⟨a, ha, haid, fun a' ha' h' =>
    appsOk_id_inj st.apps happs a' ha' a ha (h'.trans haid.symm)⟩

/-- Witness for C8: the stored record references exactly the one registered
application, and an unknown credential is rejected. -/
theorem referential_integrity_witness :
    (∃ a, a ∈ stB.apps ∧ a.id = fb0.appId ∧
      ∀ a' ∈ stB.apps, a'.id = fb0.appId → a' = a) ∧
    ingest cfg0 stB 9 (some "no-such-key") none = .error .unauthorized :=
  ⟨(referential_integrity stB reach_stB).1 fb0 (List.mem_singleton.mpr rfl),
   (referential_integrity stB reach_stB).2 cfg0 9 "no-such-key" none rfl⟩

/-- Claim C10: a minimal authenticated submission with every optional field
absent passes validation and is persisted with all optional fields null,
only the identifier, application reference, status and timestamp being
populated. -/
theorem minimal_submission_persisted
    (cfg : IngestConfig) (st : StoreState) (now : Nat) (key : String)
    (app : App)
    (hreach : Reachable st)
    (happ : findAppByKey st.apps key = some app)
    (hrate : countRecent st.submissions app.id now cfg.rateLimit.window ≤
      cfg.rateLimit.threshold) :
    ∃ st', ingest cfg st now (some key) (some minimalBody) =
        .ok (st', st.nextFeedbackId) ∧
      getFeedback st' st.nextFeedbackId = some
        { id := st.nextFeedbackId, appId := app.id, userId := none,
          rating := none, category := none, content := none,
          deviceInfo := none, metadata := none, status := some "pending",
          createdAt := now } := by
  have hval : validateFields cfg minimalBody = [] := rfl
  refine ⟨_, ingest_success_eq cfg st now key app minimalBody happ hrate hval,
    ?_⟩
  unfold getFeedback
  have hb := (reachable_inv st hreach).2.2.2.2
  refine find?_last _ _ _ ?_ (by simp [mkFeedback])
  intro g hg
  simpa using Nat.ne_of_lt (hb g hg)

/-- Witness for C10: the all-optional-fields-absent submission is accepted
into the one-application store and persisted with nulls. -/
theorem minimal_submission_persisted_witness :
    ∃ st', ingest cfg0 stA 6 (some "key-1") (some minimalBody) =
        .ok (st', stA.nextFeedbackId) ∧
      getFeedback st' stA.nextFeedbackId = some
        { id := stA.nextFeedbackId, appId := app0.id, userId := none,
          rating := none, category := none, content := none,
          deviceInfo := none, metadata := none, status := some "pending",
          createdAt := 6 } :=
  minimal_submission_persisted cfg0 stA 6 "key-1" app0 reach_stA rfl
    (by decide)

end AFMS
